import Mathlib

/-!
# urlshort: redirect handlers built from a path-to-URL mapping

A shallow embedding of `handler.go` (package `urlshort`): `MapHandler`,
`YAMLHandler` and the record type `pathURL`.

The package calls three things it does not define: the caller's `fallback`
handler, `http.Redirect` (Go standard library, `net/http`) and
`yaml.Unmarshal` (`gopkg.in/yaml.v2`).  They are arguments of the definitions
below, so the statements about dispatch hold for any behaviour of those
callees.  The section `http` further down embeds `http.Redirect` itself, for
the statements about the response it writes, and the section `yaml` models the
structured-data format of the specification, for the round trip.
-/

namespace urlshort

/-! ## Data model -/

/-- Go `map[string]string`, as an association list whose first entry for a key
is the live one; `assign` keeps the keys unique. -/
structure GoMap where
  entries : List (String × String)
deriving DecidableEq, Repr

namespace GoMap

/-- The result of `make(map[string]string)`. -/
def empty : GoMap := ⟨[]⟩

/-- The two-valued read `v, ok := m[k]`: `none` when `k` is not a key. -/
def find (m : GoMap) (k : String) : Option String :=
  List.lookup k m.entries

/-- The read `m[k]`: the zero value `""` when `k` is not a key. -/
def index (m : GoMap) (k : String) : String :=
  (m.find k).getD ""

/-- The write `m[k] = v`: replaces the entry of `k` when there is one. -/
def assign (m : GoMap) (k v : String) : GoMap :=
  ⟨(k, v) :: m.entries.filter (fun e => e.1 != k)⟩

end GoMap

/-- The record `type pathURL struct { Path string; URL string }`. -/
structure pathURL where
  Path : String
  URL : String
deriving DecidableEq, Repr

/-- What is read of `*http.Request`: `request.Method`, `request.URL.Path` (the
decoded path, which `MapHandler` looks up) and the result of
`request.URL.EscapedPath()` (the path as it is written on the wire, which
`http.Redirect` resolves a relative target against). -/
structure Request where
  Method : String
  Path : String
  EscapedPath : String
deriving DecidableEq, Repr

/-- A recording `http.ResponseWriter`: the header map `Header()` returns, the
status code of the first `WriteHeader` (`none` before it) and the body. -/
structure ResponseWriter where
  header : List (String × List String)
  status : Option Nat
  body : String
deriving DecidableEq, Repr

/-- A `http.Handler`: `ServeHTTP(writer, request)` as the writer it leaves. -/
abbrev Handler := ResponseWriter → Request → ResponseWriter

/-- The signature of `http.Redirect(w, r, url, code)`. -/
abbrev RedirectFn := ResponseWriter → Request → String → Nat → ResponseWriter

/-- The constant `http.StatusFound`. -/
def StatusFound : Nat := 302

/-- One call the handler body makes, with its arguments. -/
inductive Call where
  | Redirect (writer : ResponseWriter) (request : Request) (url : String) (code : Nat)
  | ServeHTTP (writer : ResponseWriter) (request : Request)
deriving DecidableEq, Repr

/-- Whether a logged call is a call of `http.Redirect`. -/
def Call.isRedirect : Call → Bool
  | .Redirect _ _ _ _ => true
  | .ServeHTTP _ _ => false

/-- Whether a logged call is a call of `fallback.ServeHTTP`. -/
def Call.isServeHTTP : Call → Bool
  | .Redirect _ _ _ _ => false
  | .ServeHTTP _ _ => true

/-- The state one run of the handler body works on: the captured map (a Go
reference the caller shares), the response writer, and the log of the calls
made so far, oldest first. -/
structure Invocation where
  pathsToUrls : GoMap
  writer : ResponseWriter
  calls : List Call
deriving DecidableEq, Repr

/-- The statement `http.Redirect(writer, request, url, code)`, logged. -/
def callRedirect (Redirect : RedirectFn) (request : Request) (url : String) (code : Nat)
    (s : Invocation) : Invocation :=
  { s with
    writer := Redirect s.writer request url code
    calls := s.calls ++ [Call.Redirect s.writer request url code] }

/-- The statement `fallback.ServeHTTP(writer, request)`, logged. -/
def callServeHTTP (fallback : Handler) (request : Request) (s : Invocation) : Invocation :=
  { s with
    writer := fallback s.writer request
    calls := s.calls ++ [Call.ServeHTTP s.writer request] }

/-! ## MapHandler -/

/-- The `http.HandlerFunc` that `MapHandler` returns: the function literal of
handler.go lines 17-25 together with the two variables it captures. -/
structure HandlerFunc where
  pathsToUrls : GoMap
  fallback : Handler

/-- The function `MapHandler(pathsToUrls, fallback)`. -/
def MapHandler (pathsToUrls : GoMap) (fallback : Handler) : HandlerFunc :=
  ⟨pathsToUrls, fallback⟩

/-- The body of the function literal (handler.go lines 18-24): read
`pathsToUrls[request.URL.Path]`; when `len(url) != 0` call `http.Redirect` with
`http.StatusFound` and return, otherwise call `fallback.ServeHTTP`. -/
def HandlerFunc.body (Redirect : RedirectFn) (fallback : Handler) (request : Request)
    (s : Invocation) : Invocation :=
  let url := s.pathsToUrls.index request.Path
  if url.utf8ByteSize ≠ 0 then
    callRedirect Redirect request url StatusFound s
  else
    callServeHTTP fallback request s

/-- One invocation `f(writer, request)` of the returned handler, from an empty
call log. -/
def HandlerFunc.run (Redirect : RedirectFn) (f : HandlerFunc) (writer : ResponseWriter)
    (request : Request) : Invocation :=
  HandlerFunc.body Redirect f.fallback request ⟨f.pathsToUrls, writer, []⟩

/-- The returned handler as a `http.Handler` (`HandlerFunc.ServeHTTP` calls
`f(w, r)`), so that it can itself be a fallback. -/
def HandlerFunc.ServeHTTP (Redirect : RedirectFn) (f : HandlerFunc) : Handler :=
  fun writer request => (f.run Redirect writer request).writer

/-! ## YAMLHandler -/

/-- The signature of `yaml.Unmarshal(yml, &yaml_arr)` at `[]pathURL`: the decoded
records, or the decoder error. -/
abbrev UnmarshalFn (ε : Type) := List UInt8 → Except ε (List pathURL)

/-- The loop of `YAMLHandler` (handler.go lines 53-56): starting from
`make(map[string]string)`, `yaml_map[yaml_item.Path] = yaml_item.URL` for each
item of `yaml_arr` in order. -/
def buildMap (yaml_arr : List pathURL) : GoMap :=
  yaml_arr.foldl (fun yaml_map yaml_item => yaml_map.assign yaml_item.Path yaml_item.URL)
    GoMap.empty

/-- The function `YAMLHandler(yml, fallback)`.  The Go result pair
`(http.HandlerFunc, error)` is a pair of options, `none` for `nil`. -/
def YAMLHandler {ε : Type} (Unmarshal : UnmarshalFn ε) (yml : List UInt8)
    (fallback : Handler) : Option HandlerFunc × Option ε :=
  match Unmarshal yml with
  | .error err => (none, some err)
  | .ok yaml_arr => (some (MapHandler (buildMap yaml_arr) fallback), none)

/-- The mapping the specification describes: insert `path -> url` for each
record in sequence order, starting from the empty mapping. -/
def specMapping : GoMap → List pathURL → GoMap
  | m, [] => m
  | m, r :: rs => specMapping (m.assign r.Path r.URL) rs

/-! ## The standard-library callee `http.Redirect`

`http.Redirect` and the helpers it uses (`path.Split`, `path.Clean`,
`hexEscapeNonASCII`, `htmlEscape`, `http.StatusText`) are embedded from the Go
standard library (`net/http/server.go`, `path/path.go`, `net/http/status.go`).
`url.Parse` stays an argument: `http.Redirect` reads only whether it fails and
the `Scheme` and `Host` of its result.  The result of `r.URL.EscapedPath()` is a
field of `Request`.  A Go string is modelled by its text, its bytes being the
UTF-8 encoding. -/

namespace http

/-- What `http.Redirect` reads of the `*url.URL` returned by `url.Parse`. -/
structure URL where
  Scheme : String
  Host : String
deriving DecidableEq, Repr

/-- The signature of `url.Parse`, `none` standing for a non-nil error. -/
abbrev ParseFn := String → Option URL

/-- The first result of `path.Split`: everything up to and including the last
slash, empty when there is none. -/
def splitDir (path : List Char) : List Char :=
  (path.reverse.dropWhile (fun c => c != '/')).reverse

/-- The inner loop of the `..` case of `path.Clean`: after one byte `last` has
been dropped from the buffer, `for out.w > dotdot && out.index(out.w) != '/'`
drops more.  The buffer is kept newest byte first. -/
def Clean.backtrack (dotdot : Nat) : Char → List Char → List Char
  | _, [] => []
  | last, c :: rout =>
    if (c :: rout).length > dotdot ∧ last ≠ '/' then Clean.backtrack dotdot c rout
    else c :: rout

/-- Where the scan of `path.Clean` stands: at the start of a path element, inside
the copy loop of a real element, or on the second dot of a `..` element. -/
inductive Clean.Mode where
  | element
  | copy
  | dot2
deriving DecidableEq, Repr

/-- The main loop `for r < n` of `path.Clean`, one byte of the input a step; the
arguments are the unread input, the output buffer (newest byte first) and
`dotdot`. -/
def Clean.loop (rooted : Bool) : Clean.Mode → List Char → List Char → Nat → List Char
  | _, [], rout, _ => rout
  | .copy, c :: rest, rout, dotdot =>
    if c = '/' then Clean.loop rooted .element rest rout dotdot
    else Clean.loop rooted .copy rest (c :: rout) dotdot
  | .dot2, _ :: rest, rout, dotdot => Clean.loop rooted .element rest rout dotdot
  | .element, c :: rest, rout, dotdot =>
    if c = '/' then
      Clean.loop rooted .element rest rout dotdot
    else if c = '.' ∧ (rest = [] ∨ rest.head? = some '/') then
      Clean.loop rooted .element rest rout dotdot
    else if c = '.' ∧ rest.head? = some '.' ∧
        (rest.tail = [] ∨ rest.tail.head? = some '/') then
      if rout.length > dotdot then
        Clean.loop rooted .dot2 rest
          (match rout with
           | [] => []
           | last :: rout1 => Clean.backtrack dotdot last rout1) dotdot
      else if !rooted then
        let rout1 := if rout.length > 0 then '/' :: rout else rout
        Clean.loop rooted .dot2 rest ('.' :: '.' :: rout1) (rout1.length + 2)
      else
        Clean.loop rooted .dot2 rest rout dotdot
    else
      let rout1 :=
        if (rooted && rout.length != 1) || (!rooted && rout.length != 0) then '/' :: rout
        else rout
      Clean.loop rooted .copy rest (c :: rout1) dotdot

/-- The function `path.Clean`. -/
def Clean (path : List Char) : List Char :=
  match path with
  | [] => ['.']
  | c :: rest =>
    let rooted := c == '/'
    let rout :=
      if rooted then Clean.loop true .element rest ['/'] 1
      else Clean.loop false .element (c :: rest) [] 0
    if rout.length = 0 then ['.'] else rout.reverse

/-- The block of `http.Redirect` under `if u.Scheme == "" && u.Host == ""`, with
`oldpath := r.URL.EscapedPath()`: a target without a leading slash is joined to
the directory of the escaped request path, the part before the first `?` is
cleaned with its trailing slash kept, and the query is put back. -/
def resolveRelative (escapedPath : String) (url : String) : String :=
  let oldpath := if escapedPath = "" then "/" else escapedPath
  let url1 : List Char :=
    if url = "" ∨ url.data.head? ≠ some '/' then splitDir oldpath.data ++ url.data
    else url.data
  let query := url1.dropWhile (fun c => c != '?')
  let url2 := url1.takeWhile (fun c => c != '?')
  let trailing := url2.getLast? = some '/'
  let url3 := Clean url2
  let url4 := if trailing ∧ url3.getLast? ≠ some '/' then url3 ++ ['/'] else url3
  String.mk (url4 ++ query)

/-- The bytes of the UTF-8 encoding of a character. -/
def utf8Bytes (c : Char) : List Nat :=
  let n := c.toNat
  if n < 0x80 then [n]
  else if n < 0x800 then [0xC0 + n / 64, 0x80 + n % 64]
  else if n < 0x10000 then [0xE0 + n / 4096, 0x80 + n / 64 % 64, 0x80 + n % 64]
  else [0xF0 + n / 262144, 0x80 + n / 4096 % 64, 0x80 + n / 64 % 64, 0x80 + n % 64]

/-- One lowercase hexadecimal digit. -/
def hexDigit (n : Nat) : Char :=
  "0123456789abcdef".data.getD n '0'

/-- The function `hexEscapeNonASCII`: every byte `>= utf8.RuneSelf` becomes `%`
followed by the byte in base 16. -/
def hexEscapeNonASCII (s : String) : String :=
  String.mk (s.data.flatMap fun c =>
    if c.toNat < 0x80 then [c]
    else (utf8Bytes c).flatMap fun b => ['%', hexDigit (b / 16), hexDigit (b % 16)])

/-- The function `htmlEscape` (the replacer `htmlReplacer`). -/
def htmlEscape (s : String) : String :=
  String.mk (s.data.flatMap fun c =>
    if c = '&' then "&amp;".data
    else if c = '<' then "&lt;".data
    else if c = '>' then "&gt;".data
    else if c = '"' then "&#34;".data
    else if c = Char.ofNat 39 then "&#39;".data
    else [c])

/-- The function `http.StatusText`: the empty string for an unknown code. -/
def StatusText (code : Nat) : String :=
  match code with
  | 100 => "Continue"
  | 101 => "Switching Protocols"
  | 102 => "Processing"
  | 103 => "Early Hints"
  | 200 => "OK"
  | 201 => "Created"
  | 202 => "Accepted"
  | 203 => "Non-Authoritative Information"
  | 204 => "No Content"
  | 205 => "Reset Content"
  | 206 => "Partial Content"
  | 207 => "Multi-Status"
  | 208 => "Already Reported"
  | 226 => "IM Used"
  | 300 => "Multiple Choices"
  | 301 => "Moved Permanently"
  | 302 => "Found"
  | 303 => "See Other"
  | 304 => "Not Modified"
  | 305 => "Use Proxy"
  | 307 => "Temporary Redirect"
  | 308 => "Permanent Redirect"
  | 400 => "Bad Request"
  | 401 => "Unauthorized"
  | 402 => "Payment Required"
  | 403 => "Forbidden"
  | 404 => "Not Found"
  | 405 => "Method Not Allowed"
  | 406 => "Not Acceptable"
  | 407 => "Proxy Authentication Required"
  | 408 => "Request Timeout"
  | 409 => "Conflict"
  | 410 => "Gone"
  | 411 => "Length Required"
  | 412 => "Precondition Failed"
  | 413 => "Request Entity Too Large"
  | 414 => "Request URI Too Long"
  | 415 => "Unsupported Media Type"
  | 416 => "Requested Range Not Satisfiable"
  | 417 => "Expectation Failed"
  | 418 => "I'm a teapot"
  | 421 => "Misdirected Request"
  | 422 => "Unprocessable Entity"
  | 423 => "Locked"
  | 424 => "Failed Dependency"
  | 425 => "Too Early"
  | 426 => "Upgrade Required"
  | 428 => "Precondition Required"
  | 429 => "Too Many Requests"
  | 431 => "Request Header Fields Too Large"
  | 451 => "Unavailable For Legal Reasons"
  | 500 => "Internal Server Error"
  | 501 => "Not Implemented"
  | 502 => "Bad Gateway"
  | 503 => "Service Unavailable"
  | 504 => "Gateway Timeout"
  | 505 => "HTTP Version Not Supported"
  | 506 => "Variant Also Negotiates"
  | 507 => "Insufficient Storage"
  | 508 => "Loop Detected"
  | 510 => "Not Extended"
  | 511 => "Network Authentication Required"
  | _ => ""

/-- The read `_, ok := h[key]` on the header map. -/
def headerHas (h : List (String × List String)) (key : String) : Bool :=
  (List.lookup key h).isSome

/-- The read `h.Get(key)`: the first value of the key, `""` without one. -/
def headerGet (h : List (String × List String)) (key : String) : String :=
  ((List.lookup key h).getD []).headD ""

/-- The call `w.Header().Set(key, value)`, for a key in canonical form. -/
def headerSet (w : ResponseWriter) (key value : String) : ResponseWriter :=
  { w with header := (key, [value]) :: w.header.filter (fun e => e.1 != key) }

/-- The call `w.WriteHeader(code)`: only the first one sets the status. -/
def WriteHeader (w : ResponseWriter) (code : Nat) : ResponseWriter :=
  match w.status with
  | some _ => w
  | none => { w with status := some code }

/-- The call `w.Write(data)`: writes the header with status 200 when none was
written, then appends to the body. -/
def Write (w : ResponseWriter) (data : String) : ResponseWriter :=
  let w1 := WriteHeader w 200
  { w1 with body := w1.body ++ data }

/-- The target `http.Redirect` puts in the response: `url` itself unless
`url.Parse` succeeds with an empty `Scheme` and `Host`. -/
def redirectTarget (Parse : ParseFn) (r : Request) (url : String) : String :=
  match Parse url with
  | some u => if u.Scheme = "" ∧ u.Host = "" then resolveRelative r.EscapedPath url else url
  | none => url

/-- The function `http.Redirect(w, r, url, code)`. -/
def Redirect (Parse : ParseFn) : RedirectFn := fun w r url code =>
  let url1 := redirectTarget Parse r url
  let hadCT := headerHas w.header "Content-Type"
  let w1 := headerSet w "Location" (hexEscapeNonASCII url1)
  let w2 :=
    if !hadCT && (r.Method == "GET" || r.Method == "HEAD") then
      headerSet w1 "Content-Type" "text/html; charset=utf-8"
    else w1
  let w3 := WriteHeader w2 code
  if !hadCT && r.Method == "GET" then
    Write w3 ("<a href=\"" ++ htmlEscape url1 ++ "\">" ++ StatusText code ++ "</a>.\n" ++ "\n")
  else w3

end http

/-! ## The structured-data format

`handler.go` decodes with `yaml.Unmarshal` of `gopkg.in/yaml.v2`, which is not
among the repository's files, and the repository has no encoder.  The format of
the specification (a sequence of mappings with the two string fields `path` and
`url`, one record as the two lines `- path: ...` and `  url: ...`) is modelled
here by an encoder and a decoder of that shape. -/

namespace yaml

/-- Modelled from the spec: the hexadecimal digit of a number below 16, for the
escapes of a quoted scalar (the encoder `yaml.Marshal` is missing). -/
def hexDigit (d : Nat) : Char :=
  "0123456789ABCDEF".data.getD d '0'

/-- Modelled from the spec: the value of a hexadecimal digit, `none` for any other
character (the decoder `yaml.Unmarshal` is missing). -/
def hexVal (c : Char) : Option Nat :=
  let n := c.toNat
  if 48 ≤ n ∧ n ≤ 57 then some (n - 48)
  else if 65 ≤ n ∧ n ≤ 70 then some (n - 55)
  else if 97 ≤ n ∧ n ≤ 102 then some (n - 87)
  else none

/-- Modelled from the spec: the eight hexadecimal digits of a code point, as they
follow `\U` in a quoted scalar (the encoder `yaml.Marshal` is missing). -/
def hex8 (n : Nat) : List Char :=
  [hexDigit (n / 268435456 % 16), hexDigit (n / 16777216 % 16), hexDigit (n / 1048576 % 16),
    hexDigit (n / 65536 % 16), hexDigit (n / 4096 % 16), hexDigit (n / 256 % 16),
    hexDigit (n / 16 % 16), hexDigit (n % 16)]

/-- Modelled from the spec: one character of a string inside a double-quoted
scalar; the backslash and the quote are escaped, a printable ASCII character
stands for itself, any other character is written `\U` and eight digits (the
encoder `yaml.Marshal` is missing). -/
def escapeChar (c : Char) : List Char :=
  if c = '\\' then ['\\', '\\']
  else if c = '"' then ['\\', '"']
  else if 0x20 ≤ c.toNat ∧ c.toNat ≤ 0x7E then [c]
  else '\\' :: 'U' :: hex8 c.toNat

/-- Modelled from the spec: a string field as a double-quoted scalar (the encoder
`yaml.Marshal` is missing). -/
def quoted (s : String) : List Char :=
  '"' :: (s.data.flatMap escapeChar ++ ['"'])

/-- Modelled from the spec: the start of the first line of a record, the sequence
entry with the key `path` (the codec of `gopkg.in/yaml.v2` is missing). -/
def pathKey : List Char := "- path: ".data

/-- Modelled from the spec: the start of the second line of a record, the key
`url` (the codec of `gopkg.in/yaml.v2` is missing). -/
def urlKey : List Char := "  url: ".data

/-- Modelled from the spec: the line `- path: ...` of a record (the encoder
`yaml.Marshal` is missing). -/
def pathLine (r : pathURL) : List Char :=
  pathKey ++ quoted r.Path

/-- Modelled from the spec: the line `  url: ...` of a record (the encoder
`yaml.Marshal` is missing). -/
def urlLine (r : pathURL) : List Char :=
  urlKey ++ quoted r.URL

/-- Modelled from the spec: the text of a record sequence in the structured
format, two lines a record (the encoder `yaml.Marshal` is missing). -/
def encodeText (rs : List pathURL) : List Char :=
  rs.flatMap fun r => pathLine r ++ '\n' :: (urlLine r ++ ['\n'])

/-- Modelled from the spec: encoding a record sequence into the structured
format, as the bytes of an ASCII document (`yaml.Marshal` of `gopkg.in/yaml.v2`
is missing). -/
def Marshal (rs : List pathURL) : List UInt8 :=
  (encodeText rs).map fun c => UInt8.ofNat c.toNat

/-- Modelled from the spec: the text of a UTF-8 document, `none` when the bytes
are not UTF-8; the arguments are the number of continuation bytes still due and
the bits read so far of the character (the decoder `yaml.Unmarshal` is
missing). -/
def utf8Decode : Nat → Nat → List UInt8 → Option (List Char)
  | 0, _, [] => some []
  | _ + 1, _, [] => none
  | 0, _, b :: rest =>
    if b.toNat < 0x80 then (utf8Decode 0 0 rest).map fun cs => Char.ofNat b.toNat :: cs
    else if 0xC0 ≤ b.toNat ∧ b.toNat < 0xE0 then utf8Decode 1 (b.toNat - 0xC0) rest
    else if 0xE0 ≤ b.toNat ∧ b.toNat < 0xF0 then utf8Decode 2 (b.toNat - 0xE0) rest
    else if 0xF0 ≤ b.toNat ∧ b.toNat < 0xF8 then utf8Decode 3 (b.toNat - 0xF0) rest
    else none
  | k + 1, acc, b :: rest =>
    if 0x80 ≤ b.toNat ∧ b.toNat < 0xC0 then
      if k = 0 then
        if (acc * 64 + (b.toNat - 0x80)).isValidChar then
          (utf8Decode 0 0 rest).map fun cs => Char.ofNat (acc * 64 + (b.toNat - 0x80)) :: cs
        else none
      else utf8Decode k (acc * 64 + (b.toNat - 0x80)) rest
    else none

/-- Modelled from the spec: the lines of a text, each ended by a line feed or by
the end of the text (the decoder `yaml.Unmarshal` is missing). -/
def splitLines : List Char → List (List Char)
  | [] => []
  | c :: cs =>
    if c = '\n' then [] :: splitLines cs
    else
      match splitLines cs with
      | [] => [[c]]
      | l :: ls => (c :: l) :: ls

/-- Modelled from the spec: where the scan of a double-quoted scalar stands: in
its text, after a backslash, or inside the digits of a numeric escape with the
number of digits still due and the value read so far (the decoder
`yaml.Unmarshal` is missing). -/
inductive Scan where
  | text
  | escape
  | hex (left : Nat) (acc : Nat)
deriving DecidableEq, Repr

/-- Modelled from the spec: the string of a double-quoted scalar, read from after
its opening quote; the closing quote must end the line; `none` for malformed
syntax (the decoder `yaml.Unmarshal` is missing). -/
def unquote : Scan → List Char → Option (List Char)
  | _, [] => none
  | .text, c :: rest =>
    if c = '"' then (if rest = [] then some [] else none)
    else if c = '\\' then unquote .escape rest
    else (unquote .text rest).map fun cs => c :: cs
  | .escape, c :: rest =>
    if c = '\\' then (unquote .text rest).map fun cs => '\\' :: cs
    else if c = '"' then (unquote .text rest).map fun cs => '"' :: cs
    else if c = '/' then (unquote .text rest).map fun cs => '/' :: cs
    else if c = ' ' then (unquote .text rest).map fun cs => ' ' :: cs
    else if c = 'n' then (unquote .text rest).map fun cs => '\n' :: cs
    else if c = 't' then (unquote .text rest).map fun cs => '\t' :: cs
    else if c = 'r' then (unquote .text rest).map fun cs => '\r' :: cs
    else if c = '0' then (unquote .text rest).map fun cs => Char.ofNat 0 :: cs
    else if c = 'x' then unquote (.hex 2 0) rest
    else if c = 'u' then unquote (.hex 4 0) rest
    else if c = 'U' then unquote (.hex 8 0) rest
    else none
  | .hex left acc, c :: rest =>
    match hexVal c with
    | none => none
    | some d =>
      if left ≤ 1 then
        if (acc * 16 + d).isValidChar then
          (unquote .text rest).map fun cs => Char.ofNat (acc * 16 + d) :: cs
        else none
      else unquote (.hex (left - 1) (acc * 16 + d)) rest

/-- Modelled from the spec: the characters that cannot start a plain scalar: a
value that starts with one of them is a quoted scalar, a collection or another
construct (the decoder `yaml.Unmarshal` is missing). -/
def indicators : List Char :=
  "\"'[]\x7b\x7d&*!|>%@`#,".data

/-- Modelled from the spec: the string value of a field: nothing for the empty
string, a double-quoted scalar, or a plain scalar taken as it stands; `none` for
a value that is not a string scalar (the decoder `yaml.Unmarshal` is missing). -/
def scalar (v : List Char) : Option String :=
  match v with
  | [] => some ""
  | c :: rest =>
    if c = '"' then (unquote .text rest).map String.mk
    else if c ∈ indicators then none
    else some (String.mk (c :: rest))

/-- Modelled from the spec: the value of the line of a field, `none` when the
line does not start with the key (the decoder `yaml.Unmarshal` is missing). -/
def field (key line : List Char) : Option String :=
  if key.isPrefixOf line then scalar (line.drop key.length) else none

/-- Modelled from the spec: the records of the lines of a document, a `- path:`
line and a `  url:` line each; any other shape is a decode error (the decoder
`yaml.Unmarshal` is missing). -/
def parseRecords : List (List Char) → Except String (List pathURL)
  | [] => .ok []
  | [_] => .error "yaml: unmarshal errors: a record needs a path and a url line"
  | l1 :: l2 :: rest =>
    match field pathKey l1, field urlKey l2 with
    | some p, some u =>
      match parseRecords rest with
      | .ok rs => .ok (⟨p, u⟩ :: rs)
      | .error err => .error err
    | _, _ => .error "yaml: unmarshal errors: cannot read a record"

/-- Modelled from the spec: decoding the bytes of a document of the structured
format into the record sequence: the empty document and `[]` hold no record;
bytes that are not such a document give a decode error (`yaml.Unmarshal` of
`gopkg.in/yaml.v2` is missing). -/
def Unmarshal : UnmarshalFn String := fun yml =>
  match utf8Decode 0 0 yml with
  | none => .error "yaml: invalid UTF-8"
  | some text =>
    match splitLines text with
    | [l] =>
      if l = "[]".data then .ok []
      else .error "yaml: unmarshal errors: a record needs a path and a url line"
    | lines => parseRecords lines

end yaml

/-! ## Sample values -/

/-- A fresh response writer: no header, no status, no body. -/
def emptyWriter : ResponseWriter := ⟨[], none, ""⟩

/-- A sample fallback handler: answers every request with a greeting. -/
def sampleFallback : Handler := fun w _ => http.Write w "Hello, world!\n"

/-- A stand-in for `url.Parse` on the sample targets: a target that starts with
`https://` is read with that scheme and what follows, up to the next slash, as
its host; any other target as a reference without scheme and host. -/
def sampleParse : http.ParseFn := fun url =>
  if "https://".data.isPrefixOf url.data then
    some ⟨"https", String.mk ((url.data.drop 8).takeWhile fun c => c != '/')⟩
  else some ⟨"", ""⟩

/-- The sample document of the package comment of `YAMLHandler`, with the
records of the round-trip example. -/
def sampleYAML : List UInt8 :=
  "- path: /a\n  url: https://x\n- path: /b\n  url: https://y\n".data.map
    fun c => UInt8.ofNat c.toNat

/-- The records of `sampleYAML`. -/
def sampleRecords : List pathURL := [⟨"/a", "https://x"⟩, ⟨"/b", "https://y"⟩]

/-- A stand-in for `yaml.Unmarshal` on an input that decodes to `rs`. -/
def decodesTo (rs : List pathURL) : UnmarshalFn String := fun _ => .ok rs

/-- A stand-in for `yaml.Unmarshal` that knows the sample document, the empty
document, and rejects everything else. -/
def sampleUnmarshal : UnmarshalFn String := fun yml =>
  if yml = sampleYAML then .ok sampleRecords
  else if yml = [] then .ok []
  else .error "yaml: unmarshal errors"

end urlshort

/-! ## Lemmas on strings and maps -/

namespace urlshort

theorem utf8ByteSize_go_pos (c : Char) (cs : List Char) :
    0 < String.utf8ByteSize.go (c :: cs) := by
  have h := Char.utf8Size_pos c
  simp only [String.utf8ByteSize.go]
  omega

theorem utf8ByteSize_eq_zero_iff (s : String) : s.utf8ByteSize = 0 ↔ s = "" := by
  cases s with
  | mk cs =>
    cases cs with
    | nil => exact ⟨fun _ => rfl, fun _ => rfl⟩
    | cons c cs =>
      constructor
      · intro h
        have hpos := utf8ByteSize_go_pos c cs
        simp only [String.utf8ByteSize] at h
        omega
      · intro h
        exact absurd (congrArg String.data h) (by simp)

theorem GoMap.find_empty (k : String) : GoMap.empty.find k = none := rfl

theorem lookup_filter_ne (k k' : String) (h : k' ≠ k) (l : List (String × String)) :
    List.lookup k' (l.filter (fun e => e.1 != k)) = List.lookup k' l := by
  induction l with
  | nil => rfl
  | cons e l ih =>
    obtain ⟨a, b⟩ := e
    by_cases hak : a = k
    · subst hak
      have hne : (k' == a) = false := by simpa using h
      simp [List.filter, List.lookup, hne, ih]
    · have hf : ((a, b).1 != k) = true := by simpa using hak
      by_cases hk : k' = a
      · subst hk
        simp [List.filter, hf, List.lookup]
      · have hne : (k' == a) = false := by simpa using hk
        simp [List.filter, hf, List.lookup, hne, ih]

theorem GoMap.find_assign (m : GoMap) (k v k' : String) :
    (m.assign k v).find k' = if k' = k then some v else m.find k' := by
  by_cases h : k' = k
  · subst h
    simp [GoMap.assign, GoMap.find, List.lookup]
  · have hne : (k' == k) = false := by simpa using h
    simp [GoMap.assign, GoMap.find, List.lookup, hne, h, lookup_filter_ne k k' h]

theorem GoMap.index_of_find_some (m : GoMap) (k v : String) (h : m.find k = some v) :
    m.index k = v := by
  simp [GoMap.index, h]

theorem GoMap.index_of_find_none (m : GoMap) (k : String) (h : m.find k = none) :
    m.index k = "" := by
  simp [GoMap.index, h]

/-- The two branches of the handler body, told apart by the value read. -/
theorem run_of_index_ne (Redirect : RedirectFn) (M : GoMap) (fallback : Handler)
    (writer : ResponseWriter) (request : Request) (h : M.index request.Path ≠ "") :
    (MapHandler M fallback).run Redirect writer request =
      ⟨M, Redirect writer request (M.index request.Path) 302,
        [Call.Redirect writer request (M.index request.Path) 302]⟩ := by
  have hlen : (M.index request.Path).utf8ByteSize ≠ 0 :=
    fun h0 => h ((utf8ByteSize_eq_zero_iff _).1 h0)
  simp [HandlerFunc.run, HandlerFunc.body, MapHandler, callRedirect, StatusFound, hlen]

theorem run_of_index_eq (Redirect : RedirectFn) (M : GoMap) (fallback : Handler)
    (writer : ResponseWriter) (request : Request) (h : M.index request.Path = "") :
    (MapHandler M fallback).run Redirect writer request =
      ⟨M, fallback writer request, [Call.ServeHTTP writer request]⟩ := by
  have hlen : (M.index request.Path).utf8ByteSize = 0 := (utf8ByteSize_eq_zero_iff _).2 h
  simp [HandlerFunc.run, HandlerFunc.body, MapHandler, callServeHTTP, hlen]

theorem run_of_find_nonempty (Redirect : RedirectFn) (M : GoMap) (fallback : Handler)
    (writer : ResponseWriter) (request : Request) (v : String)
    (hkey : M.find request.Path = some v) (hv : v ≠ "") :
    (MapHandler M fallback).run Redirect writer request =
      ⟨M, Redirect writer request v 302, [Call.Redirect writer request v 302]⟩ := by
  have hidx : M.index request.Path = v := GoMap.index_of_find_some M _ v hkey
  have hrun := run_of_index_ne Redirect M fallback writer request (by rw [hidx]; exact hv)
  rw [hidx] at hrun
  exact hrun

/-- The loop of `YAMLHandler` from any starting map. -/
theorem find_foldl_of_not_mem (p : String) (rs : List pathURL) (m : GoMap)
    (h : ∀ r ∈ rs, r.Path ≠ p) :
    (rs.foldl (fun yaml_map yaml_item => yaml_map.assign yaml_item.Path yaml_item.URL) m).find p
      = m.find p := by
  induction rs generalizing m with
  | nil => rfl
  | cons r rs ih =>
    have hr : r.Path ≠ p := h r (List.mem_cons_self _ _)
    have hrs : ∀ x ∈ rs, x.Path ≠ p := fun x hx => h x (List.mem_cons_of_mem _ hx)
    simp only [List.foldl_cons]
    rw [ih _ hrs, GoMap.find_assign]
    simp [Ne.symm hr]

/-- The last record of a path decides what the built map holds for it. -/
theorem find_buildMap_last (p u : String) (pre post : List pathURL)
    (h : ∀ r ∈ post, r.Path ≠ p) :
    (buildMap (pre ++ ⟨p, u⟩ :: post)).find p = some u := by
  simp only [buildMap, List.foldl_append, List.foldl_cons]
  rw [find_foldl_of_not_mem p post _ h, GoMap.find_assign]
  simp

theorem find_buildMap_of_not_mem (p : String) (rs : List pathURL)
    (h : ∀ r ∈ rs, r.Path ≠ p) : (buildMap rs).find p = none := by
  simp only [buildMap]
  rw [find_foldl_of_not_mem p rs _ h]
  rfl

theorem specMapping_eq_foldl (m : GoMap) (rs : List pathURL) :
    specMapping m rs =
      rs.foldl (fun yaml_map yaml_item => yaml_map.assign yaml_item.Path yaml_item.URL) m := by
  induction rs generalizing m with
  | nil => rfl
  | cons r rs ih => simp [specMapping, ih]

end urlshort

/-! ## MapHandler: dispatch -/

namespace urlshort

/-- C1. For every mapping, fallback and request whose path is a key with a
non-empty value `v`, one invocation of the handler of `MapHandler` makes exactly
one call, `http.Redirect(writer, request, v, 302)`, leaves what that call leaves,
and makes no call of the fallback. -/
theorem MapHandler_redirects_mapped_path (Redirect : RedirectFn) (M : GoMap)
    (fallback : Handler) (writer : ResponseWriter) (request : Request) (v : String)
    (hkey : M.find request.Path = some v) (hv : v ≠ "") :
    (MapHandler M fallback).run Redirect writer request =
        ⟨M, Redirect writer request v 302, [Call.Redirect writer request v 302]⟩ ∧
      (MapHandler M fallback).ServeHTTP Redirect writer request =
        Redirect writer request v 302 ∧
      ∀ w r, Call.ServeHTTP w r ∉ ((MapHandler M fallback).run Redirect writer request).calls := by
  have hrun := run_of_find_nonempty Redirect M fallback writer request v hkey hv
  refine ⟨hrun, ?_, ?_⟩
  · simp [HandlerFunc.ServeHTTP, hrun]
  · intro w r
    simp [hrun]

/-- C1, at the mapping `/a -> https://x` and a `GET` of `/a`. -/
theorem MapHandler_redirects_mapped_path_witness :
    (GoMap.mk [("/a", "https://x")]).find "/a" = some "https://x" ∧
      ((MapHandler (GoMap.mk [("/a", "https://x")]) sampleFallback).run
          (http.Redirect sampleParse) emptyWriter ⟨"GET", "/a", "/a"⟩).calls =
        [Call.Redirect emptyWriter ⟨"GET", "/a", "/a"⟩ "https://x" 302] :=
  ⟨by decide,
    congrArg Invocation.calls
      (MapHandler_redirects_mapped_path (http.Redirect sampleParse)
        (GoMap.mk [("/a", "https://x")]) sampleFallback emptyWriter ⟨"GET", "/a", "/a"⟩ "https://x"
        (by decide) (by decide)).1⟩

/-- C2. For every mapping, fallback and request whose path is not a key, or is
mapped to the empty string, one invocation of the handler of `MapHandler` makes
exactly one call, `fallback.ServeHTTP(writer, request)`, its response is the
fallback's response to that request, and it makes no call of `http.Redirect`. -/
theorem MapHandler_delegates_unmapped_path (Redirect : RedirectFn) (M : GoMap)
    (fallback : Handler) (writer : ResponseWriter) (request : Request)
    (hmiss : M.find request.Path = none ∨ M.find request.Path = some "") :
    (MapHandler M fallback).run Redirect writer request =
        ⟨M, fallback writer request, [Call.ServeHTTP writer request]⟩ ∧
      (MapHandler M fallback).ServeHTTP Redirect writer request = fallback writer request ∧
      ∀ w r url code,
        Call.Redirect w r url code ∉ ((MapHandler M fallback).run Redirect writer request).calls := by
  have hidx : M.index request.Path = "" := by
    rcases hmiss with h | h
    · exact GoMap.index_of_find_none M _ h
    · exact GoMap.index_of_find_some M _ "" h
  have hrun := run_of_index_eq Redirect M fallback writer request hidx
  refine ⟨hrun, ?_, ?_⟩
  · simp [HandlerFunc.ServeHTTP, hrun]
  · intro w r url code
    simp [hrun]

/-- C2, at the mapping `/a -> https://x, /gone -> ""` and a `GET` of `/gone`. -/
theorem MapHandler_delegates_unmapped_path_witness :
    (GoMap.mk [("/a", "https://x"), ("/gone", "")]).find "/gone" = some "" ∧
      (MapHandler (GoMap.mk [("/a", "https://x"), ("/gone", "")]) sampleFallback).ServeHTTP
          (http.Redirect sampleParse) emptyWriter ⟨"GET", "/gone", "/gone"⟩ =
        sampleFallback emptyWriter ⟨"GET", "/gone", "/gone"⟩ :=
  ⟨by decide,
    (MapHandler_delegates_unmapped_path (http.Redirect sampleParse)
      (GoMap.mk [("/a", "https://x"), ("/gone", "")]) sampleFallback emptyWriter
      ⟨"GET", "/gone", "/gone"⟩ (Or.inr (by decide))).2.1⟩

/-- C8. For every mapping, fallback and request, one invocation of the handler
of `MapHandler` makes exactly one call: either one `http.Redirect` and no
`fallback.ServeHTTP`, or one `fallback.ServeHTTP` and no `http.Redirect`; and the
captured mapping is the same after the invocation. -/
theorem MapHandler_exactly_one_action (Redirect : RedirectFn) (M : GoMap)
    (fallback : Handler) (writer : ResponseWriter) (request : Request) :
    ((((MapHandler M fallback).run Redirect writer request).calls.countP Call.isRedirect = 1 ∧
        ((MapHandler M fallback).run Redirect writer request).calls.countP Call.isServeHTTP = 0 ∧
        ((MapHandler M fallback).run Redirect writer request).writer =
          Redirect writer request (M.index request.Path) 302) ∨
      (((MapHandler M fallback).run Redirect writer request).calls.countP Call.isRedirect = 0 ∧
        ((MapHandler M fallback).run Redirect writer request).calls.countP Call.isServeHTTP = 1 ∧
        ((MapHandler M fallback).run Redirect writer request).writer =
          fallback writer request)) ∧
      ((MapHandler M fallback).run Redirect writer request).calls.length = 1 ∧
      ((MapHandler M fallback).run Redirect writer request).pathsToUrls = M := by
  by_cases h : M.index request.Path = ""
  · rw [run_of_index_eq Redirect M fallback writer request h]
    simp [Call.isRedirect, Call.isServeHTTP]
  · rw [run_of_index_ne Redirect M fallback writer request h]
    simp [Call.isRedirect, Call.isServeHTTP]

end urlshort

/-! ## YAMLHandler -/

namespace urlshort

theorem YAMLHandler_of_ok {ε : Type} (Unmarshal : UnmarshalFn ε) (yml : List UInt8)
    (fallback : Handler) (rs : List pathURL) (hdec : Unmarshal yml = .ok rs) :
    YAMLHandler Unmarshal yml fallback = (some (MapHandler (buildMap rs) fallback), none) := by
  simp [YAMLHandler, hdec]

theorem YAMLHandler_of_error {ε : Type} (Unmarshal : UnmarshalFn ε) (yml : List UInt8)
    (fallback : Handler) (err : ε) (hdec : Unmarshal yml = .error err) :
    YAMLHandler Unmarshal yml fallback = (none, some err) := by
  simp [YAMLHandler, hdec]

/-- C3. `YAMLHandler` returns an error exactly when `yaml.Unmarshal` fails on the
input; then the handler is nil and the error is the decoder's error itself; when
decoding succeeds the error is nil and the handler is not nil. -/
theorem YAMLHandler_error_iff_decode_fails {ε : Type} (Unmarshal : UnmarshalFn ε)
    (yml : List UInt8) (fallback : Handler) :
    ((YAMLHandler Unmarshal yml fallback).2 ≠ none ↔ ∃ err, Unmarshal yml = .error err) ∧
      (∀ err, Unmarshal yml = .error err →
        YAMLHandler Unmarshal yml fallback = (none, some err)) ∧
      (∀ rs, Unmarshal yml = .ok rs →
        (YAMLHandler Unmarshal yml fallback).2 = none ∧
          (YAMLHandler Unmarshal yml fallback).1 ≠ none) := by
  refine ⟨?_, ?_, ?_⟩
  · cases hdec : Unmarshal yml with
    | error err => simp [YAMLHandler, hdec]
    | ok rs => simp [YAMLHandler, hdec]
  · intro err hdec
    exact YAMLHandler_of_error Unmarshal yml fallback err hdec
  · intro rs hdec
    simp [YAMLHandler_of_ok Unmarshal yml fallback rs hdec]

/-- C4. When the input decodes to the records `rs`, the handler `YAMLHandler`
returns is `MapHandler` of the specification's mapping (each record inserted in
order into the empty mapping) and the same fallback, so every invocation of it
makes the same calls and leaves the same response. -/
theorem YAMLHandler_refines_MapHandler {ε : Type} (Unmarshal : UnmarshalFn ε)
    (yml : List UInt8) (fallback : Handler) (rs : List pathURL)
    (hdec : Unmarshal yml = .ok rs) :
    buildMap rs = specMapping GoMap.empty rs ∧
      ∃ h, YAMLHandler Unmarshal yml fallback = (some h, none) ∧
        ∀ (Redirect : RedirectFn) (writer : ResponseWriter) (request : Request),
          h.run Redirect writer request =
              (MapHandler (specMapping GoMap.empty rs) fallback).run Redirect writer request ∧
            h.ServeHTTP Redirect writer request =
              (MapHandler (specMapping GoMap.empty rs) fallback).ServeHTTP Redirect writer
                request := by
  have hmap : buildMap rs = specMapping GoMap.empty rs := by
    rw [specMapping_eq_foldl]
    rfl
  refine ⟨hmap, MapHandler (buildMap rs) fallback,
    YAMLHandler_of_ok Unmarshal yml fallback rs hdec, ?_⟩
  intro Redirect writer request
  rw [hmap]
  exact ⟨rfl, rfl⟩

/-- C4, at the sample document. -/
theorem YAMLHandler_refines_MapHandler_witness :
    sampleUnmarshal sampleYAML = .ok sampleRecords ∧
      buildMap sampleRecords = specMapping GoMap.empty sampleRecords :=
  ⟨by simp [sampleUnmarshal],
    (YAMLHandler_refines_MapHandler sampleUnmarshal sampleYAML sampleFallback sampleRecords
      (by simp [sampleUnmarshal])).1⟩

/-- C7. When the input decodes to zero records, the handler `YAMLHandler` returns
calls the fallback, and never `http.Redirect`, for every request; and so does the
handler of `MapHandler` over the empty mapping. -/
theorem YAMLHandler_no_records_delegates {ε : Type} (Unmarshal : UnmarshalFn ε)
    (yml : List UInt8) (fallback : Handler) (hdec : Unmarshal yml = .ok []) :
    (∃ h, YAMLHandler Unmarshal yml fallback = (some h, none) ∧
        ∀ (Redirect : RedirectFn) (writer : ResponseWriter) (request : Request),
          h.run Redirect writer request =
            ⟨GoMap.empty, fallback writer request, [Call.ServeHTTP writer request]⟩) ∧
      ∀ (Redirect : RedirectFn) (writer : ResponseWriter) (request : Request),
        (MapHandler GoMap.empty fallback).run Redirect writer request =
          ⟨GoMap.empty, fallback writer request, [Call.ServeHTTP writer request]⟩ := by
  have hempty : ∀ (Redirect : RedirectFn) (writer : ResponseWriter) (request : Request),
      (MapHandler GoMap.empty fallback).run Redirect writer request =
        ⟨GoMap.empty, fallback writer request, [Call.ServeHTTP writer request]⟩ :=
    fun Redirect writer request =>
      run_of_index_eq Redirect GoMap.empty fallback writer request
        (GoMap.index_of_find_none _ _ (GoMap.find_empty _))
  exact ⟨⟨MapHandler GoMap.empty fallback,
    YAMLHandler_of_ok Unmarshal yml fallback [] hdec, hempty⟩, hempty⟩

/-- C7, at the empty document. -/
theorem YAMLHandler_no_records_delegates_witness :
    sampleUnmarshal [] = .ok [] ∧
      (MapHandler GoMap.empty sampleFallback).run (http.Redirect sampleParse) emptyWriter
          ⟨"GET", "/a", "/a"⟩ =
        ⟨GoMap.empty, sampleFallback emptyWriter ⟨"GET", "/a", "/a"⟩,
          [Call.ServeHTTP emptyWriter ⟨"GET", "/a", "/a"⟩]⟩ :=
  ⟨by simp [sampleUnmarshal, sampleYAML],
    (YAMLHandler_no_records_delegates sampleUnmarshal [] sampleFallback
      (by simp [sampleUnmarshal, sampleYAML])).2
      (http.Redirect sampleParse) emptyWriter ⟨"GET", "/a", "/a"⟩⟩

/-- C10. When the last decoded record of a path `p` has the empty url, the handler
`YAMLHandler` returns calls the fallback for a request of `p`, whatever the
earlier records hold for `p`. -/
theorem YAMLHandler_empty_url_unmaps {ε : Type} (Unmarshal : UnmarshalFn ε)
    (yml : List UInt8) (fallback : Handler) (p : String) (pre post : List pathURL)
    (Redirect : RedirectFn) (writer : ResponseWriter) (request : Request)
    (hdec : Unmarshal yml = .ok (pre ++ ⟨p, ""⟩ :: post))
    (hpost : ∀ r ∈ post, r.Path ≠ p) (hreq : request.Path = p) :
    ∃ h, YAMLHandler Unmarshal yml fallback = (some h, none) ∧
      h.run Redirect writer request =
        ⟨buildMap (pre ++ ⟨p, ""⟩ :: post), fallback writer request,
          [Call.ServeHTTP writer request]⟩ ∧
      h.ServeHTTP Redirect writer request = fallback writer request := by
  have hfind : (buildMap (pre ++ ⟨p, ""⟩ :: post)).find request.Path = some "" := by
    rw [hreq]
    exact find_buildMap_last p "" pre post hpost
  have hrun := run_of_index_eq Redirect _ fallback writer request
    (GoMap.index_of_find_some _ _ "" hfind)
  refine ⟨MapHandler (buildMap (pre ++ ⟨p, ""⟩ :: post)) fallback,
    YAMLHandler_of_ok Unmarshal yml fallback _ hdec, hrun, ?_⟩
  simp [HandlerFunc.ServeHTTP, hrun]

/-- C10, at the records `/a -> https://x`, `/a -> ""` and a `GET` of `/a`. -/
theorem YAMLHandler_empty_url_unmaps_witness :
    ∃ h, YAMLHandler (decodesTo [⟨"/a", "https://x"⟩, ⟨"/a", ""⟩]) [] sampleFallback =
          (some h, none) ∧
      h.run (http.Redirect sampleParse) emptyWriter ⟨"GET", "/a", "/a"⟩ =
        ⟨buildMap [⟨"/a", "https://x"⟩, ⟨"/a", ""⟩],
          sampleFallback emptyWriter ⟨"GET", "/a", "/a"⟩,
          [Call.ServeHTTP emptyWriter ⟨"GET", "/a", "/a"⟩]⟩ ∧
      h.ServeHTTP (http.Redirect sampleParse) emptyWriter ⟨"GET", "/a", "/a"⟩ =
        sampleFallback emptyWriter ⟨"GET", "/a", "/a"⟩ :=
  YAMLHandler_empty_url_unmaps (decodesTo [⟨"/a", "https://x"⟩, ⟨"/a", ""⟩]) []
    sampleFallback "/a" [⟨"/a", "https://x"⟩] [] (http.Redirect sampleParse) emptyWriter
    ⟨"GET", "/a", "/a"⟩ rfl (by simp) rfl

end urlshort

/-! ## YAMLHandler: duplicate paths -/

namespace urlshort

/-- C5 (as amended). When the decoded records hold `p -> U1` and later `p -> U2`
with no later record of `p`, and `U2` is not empty, the handler `YAMLHandler`
returns makes exactly one call for a request of `p`, `http.Redirect` to `U2` with
status 302; it redirects to `U1` only when `U1` is `U2`. -/
theorem YAMLHandler_last_write_wins {ε : Type} (Unmarshal : UnmarshalFn ε)
    (yml : List UInt8) (fallback : Handler) (p U1 U2 : String) (pre mid post : List pathURL)
    (Redirect : RedirectFn) (writer : ResponseWriter) (request : Request)
    (hdec : Unmarshal yml = .ok (pre ++ ⟨p, U1⟩ :: (mid ++ ⟨p, U2⟩ :: post)))
    (hpost : ∀ r ∈ post, r.Path ≠ p) (hU2 : U2 ≠ "") (hreq : request.Path = p) :
    ∃ h, YAMLHandler Unmarshal yml fallback = (some h, none) ∧
      h.run Redirect writer request =
        ⟨buildMap (pre ++ ⟨p, U1⟩ :: (mid ++ ⟨p, U2⟩ :: post)),
          Redirect writer request U2 302, [Call.Redirect writer request U2 302]⟩ ∧
      (U1 ≠ U2 → Call.Redirect writer request U1 302 ∉ (h.run Redirect writer request).calls) := by
  have hfind :
      (buildMap (pre ++ ⟨p, U1⟩ :: (mid ++ ⟨p, U2⟩ :: post))).find request.Path = some U2 := by
    have hassoc : pre ++ ⟨p, U1⟩ :: (mid ++ ⟨p, U2⟩ :: post) =
        (pre ++ ⟨p, U1⟩ :: mid) ++ ⟨p, U2⟩ :: post := by simp
    rw [hreq, hassoc]
    exact find_buildMap_last p U2 _ post hpost
  have hrun := run_of_find_nonempty Redirect _ fallback writer request U2 hfind hU2
  refine ⟨MapHandler (buildMap (pre ++ ⟨p, U1⟩ :: (mid ++ ⟨p, U2⟩ :: post))) fallback,
    YAMLHandler_of_ok Unmarshal yml fallback _ hdec, hrun, ?_⟩
  intro hne
  rw [hrun]
  simp [hne]

end urlshort

namespace urlshort

/-- C5, at the records `/a -> https://x`, `/a -> https://y` and a `GET` of `/a`. -/
theorem YAMLHandler_last_write_wins_witness :
    ∃ h, YAMLHandler (decodesTo [⟨"/a", "https://x"⟩, ⟨"/a", "https://y"⟩]) []
          sampleFallback = (some h, none) ∧
      h.run (http.Redirect sampleParse) emptyWriter ⟨"GET", "/a", "/a"⟩ =
        ⟨buildMap [⟨"/a", "https://x"⟩, ⟨"/a", "https://y"⟩],
          http.Redirect sampleParse emptyWriter ⟨"GET", "/a", "/a"⟩ "https://y" 302,
          [Call.Redirect emptyWriter ⟨"GET", "/a", "/a"⟩ "https://y" 302]⟩ ∧
      ("https://x" ≠ "https://y" →
        Call.Redirect emptyWriter ⟨"GET", "/a", "/a"⟩ "https://x" 302 ∉
          (h.run (http.Redirect sampleParse) emptyWriter ⟨"GET", "/a", "/a"⟩).calls) :=
  YAMLHandler_last_write_wins (decodesTo [⟨"/a", "https://x"⟩, ⟨"/a", "https://y"⟩]) []
    sampleFallback "/a" "https://x" "https://y" [] [] [] (http.Redirect sampleParse)
    emptyWriter ⟨"GET", "/a", "/a"⟩ rfl (by simp) (by decide) rfl

/-- C5 fails as stated: with the records `/a -> https://x`, `/a -> ""` (so `U2`
is empty) a `GET` of `/a` is not redirected to `U2`; the handler calls the
fallback and makes no call of `http.Redirect`. -/
theorem YAMLHandler_empty_last_url_not_redirected :
    ∃ h, YAMLHandler (decodesTo [⟨"/a", "https://x"⟩, ⟨"/a", ""⟩]) [] sampleFallback =
          (some h, none) ∧
      (h.run (http.Redirect sampleParse) emptyWriter ⟨"GET", "/a", "/a"⟩).calls =
        [Call.ServeHTTP emptyWriter ⟨"GET", "/a", "/a"⟩] ∧
      (h.run (http.Redirect sampleParse) emptyWriter ⟨"GET", "/a", "/a"⟩).calls ≠
        [Call.Redirect emptyWriter ⟨"GET", "/a", "/a"⟩ "" 302] :=
  ⟨MapHandler (buildMap [⟨"/a", "https://x"⟩, ⟨"/a", ""⟩]) sampleFallback, rfl,
    by decide, by decide⟩

end urlshort

/-! ## The response `http.Redirect` writes -/

namespace urlshort

theorem http.lookup_filter_ne_key (k k' : String) (h : k' ≠ k)
    (l : List (String × List String)) :
    List.lookup k' (l.filter (fun e => e.1 != k)) = List.lookup k' l := by
  induction l with
  | nil => rfl
  | cons e l ih =>
    obtain ⟨a, b⟩ := e
    by_cases hak : a = k
    · subst hak
      have hne : (k' == a) = false := by simpa using h
      simp [List.filter, List.lookup, hne, ih]
    · have hf : ((a, b).1 != k) = true := by simpa using hak
      by_cases hk : k' = a
      · subst hk
        simp [List.filter, hf, List.lookup]
      · have hne : (k' == a) = false := by simpa using hk
        simp [List.filter, hf, List.lookup, hne, ih]

theorem http.headerGet_headerSet (w : ResponseWriter) (key value : String) :
    http.headerGet (http.headerSet w key value).header key = value := by
  simp [http.headerGet, http.headerSet, List.lookup]

theorem http.headerGet_headerSet_ne (w : ResponseWriter) (key key' value : String)
    (h : key' ≠ key) :
    http.headerGet (http.headerSet w key value).header key' = http.headerGet w.header key' := by
  have hne : (key' == key) = false := by simpa using h
  simp [http.headerGet, http.headerSet, List.lookup, hne, http.lookup_filter_ne_key key key' h]

theorem http.WriteHeader_header (w : ResponseWriter) (code : Nat) :
    (http.WriteHeader w code).header = w.header := by
  unfold http.WriteHeader
  split <;> rfl

theorem http.Write_header (w : ResponseWriter) (data : String) :
    (http.Write w data).header = w.header := by
  simp [http.Write, http.WriteHeader_header]

theorem http.WriteHeader_status (w : ResponseWriter) (code : Nat) (h : w.status = none) :
    (http.WriteHeader w code).status = some code := by
  simp [http.WriteHeader, h]

theorem http.WriteHeader_status_of_some (w : ResponseWriter) (code c : Nat)
    (h : w.status = some c) : (http.WriteHeader w code).status = some c := by
  simp [http.WriteHeader, h]

theorem http.headerSet_status (w : ResponseWriter) (key value : String) :
    (http.headerSet w key value).status = w.status := rfl

/-- The model of `path.Clean` on rows of the table in its documentation and
tests. -/
theorem http.Clean_examples :
    http.Clean "a//c".data = "a/c".data ∧
      http.Clean "a/c/b/..".data = "a/c".data ∧
      http.Clean "/../a/b/../././/c".data = "/a/c".data ∧
      http.Clean "abc/../../././../def".data = "../../def".data ∧
      http.Clean "/abc/def/../../..".data = "/".data ∧
      http.Clean "".data = ".".data := by
  decide

/-- The response `http.Redirect` writes on a fresh writer for a `GET`, at an
absolute target and at relative targets, one of them on a request path that is
escaped on the wire. -/
theorem http.Redirect_examples :
    http.Redirect sampleParse emptyWriter ⟨"GET", "/a", "/a"⟩ "https://x" 302 =
        ⟨[("Content-Type", ["text/html; charset=utf-8"]), ("Location", ["https://x"])],
          some 302, "<a href=\"https://x\">Found</a>.\n\n"⟩ ∧
      http.Redirect sampleParse emptyWriter ⟨"GET", "/a/b", "/a/b"⟩ "../c/?q=1" 302 =
        ⟨[("Content-Type", ["text/html; charset=utf-8"]), ("Location", ["/c/?q=1"])],
          some 302, "<a href=\"/c/?q=1\">Found</a>.\n\n"⟩ ∧
      http.headerGet
          (http.Redirect sampleParse emptyWriter ⟨"GET", "/a b/c", "/a%20b/c"⟩ "foo"
            302).header "Location" = "/a%20b/foo" ∧
      http.headerGet
          (http.Redirect sampleParse emptyWriter ⟨"GET", "/a/b/c", "/a%2Fb/c"⟩ "foo"
            302).header "Location" = "/a%2Fb/foo" ∧
      http.headerGet
          (http.Redirect sampleParse emptyWriter ⟨"GET", "/é/c", "/%C3%A9/c"⟩ "foo"
            302).header "Location" = "/%C3%A9/foo" := by
  decide

/-- The `Location` header `http.Redirect` leaves is the escaped target. -/
theorem http.Redirect_location (Parse : http.ParseFn) (w : ResponseWriter) (r : Request)
    (url : String) (code : Nat) :
    http.headerGet (http.Redirect Parse w r url code).header "Location" =
      http.hexEscapeNonASCII (http.redirectTarget Parse r url) := by
  have hne : ("Location" : String) ≠ "Content-Type" := by decide
  unfold http.Redirect
  simp only []
  split_ifs <;>
    simp [http.Write_header, http.WriteHeader_header, http.headerGet_headerSet,
      http.headerGet_headerSet_ne _ _ _ _ hne]

/-- On a writer whose header is not yet written, `http.Redirect` sets the status
to its `code`. -/
theorem http.Redirect_status (Parse : http.ParseFn) (w : ResponseWriter) (r : Request)
    (url : String) (code : Nat) (h : w.status = none) :
    (http.Redirect Parse w r url code).status = some code := by
  unfold http.Redirect
  simp only []
  have hw3 : ∀ w2 : ResponseWriter, w2.status = none →
      (http.WriteHeader w2 code).status = some code ∧
        ∀ data, (http.Write (http.WriteHeader w2 code) data).status = some code := by
    intro w2 h2
    refine ⟨http.WriteHeader_status w2 code h2, fun data => ?_⟩
    simp [http.Write, http.WriteHeader_status_of_some _ 200 code
      (http.WriteHeader_status w2 code h2)]
  split_ifs <;> simp [hw3, http.headerSet_status, h]

theorem http.hexEscapeNonASCII_of_ascii (s : String) (h : ∀ c ∈ s.data, c.toNat < 0x80) :
    http.hexEscapeNonASCII s = s := by
  have hlist : ∀ l : List Char, (∀ c ∈ l, c.toNat < 0x80) →
      (l.flatMap fun c =>
        if c.toNat < 0x80 then [c]
        else (http.utf8Bytes c).flatMap fun b =>
          ['%', http.hexDigit (b / 16), http.hexDigit (b % 16)]) = l := by
    intro l
    induction l with
    | nil => intro _; rfl
    | cons c l ih =>
      intro hl
      have hc : c.toNat < 0x80 := hl c (List.mem_cons_self _ _)
      have hrest := ih (fun x hx => hl x (List.mem_cons_of_mem _ hx))
      simp only [List.flatMap_cons, hc, if_true, hrest]
      rfl
  unfold http.hexEscapeNonASCII
  rw [hlist s.data h]

/-- A target that `url.Parse` rejects, or reads with a scheme or a host, is left
as it is. -/
theorem http.redirectTarget_of_absolute (Parse : http.ParseFn) (r : Request) (url : String)
    (h : Parse url = none ∨ ∃ u, Parse url = some u ∧ ¬ (u.Scheme = "" ∧ u.Host = "")) :
    http.redirectTarget Parse r url = url := by
  unfold http.redirectTarget
  rcases h with h | ⟨u, hu, hne⟩
  · simp [h]
  · simp only [hu]
    rw [if_neg hne]

theorem http.dropWhile_append_slash (l : List Char) :
    ∃ s, (l ++ ['/']).dropWhile (fun c => c != '/') = s ++ ['/'] := by
  induction l with
  | nil => exact ⟨[], by simp [List.dropWhile]⟩
  | cons c l ih =>
    by_cases hc : c = '/'
    · subst hc
      exact ⟨'/' :: l, by simp [List.dropWhile]⟩
    · obtain ⟨s, hs⟩ := ih
      refine ⟨s, ?_⟩
      have : (c != '/') = true := by simpa using hc
      simp [List.dropWhile, this, hs]

theorem http.splitDir_rooted (t : List Char) :
    ∃ s, http.splitDir ('/' :: t) = '/' :: s := by
  obtain ⟨s, hs⟩ := http.dropWhile_append_slash t.reverse
  refine ⟨s.reverse, ?_⟩
  simp [http.splitDir, hs]

theorem http.backtrack_rooted (last : Char) (l : List Char) (s : List Char)
    (h : l = s ++ ['/']) : ∃ s1, http.Clean.backtrack 1 last l = s1 ++ ['/'] := by
  induction l generalizing last s with
  | nil => simp at h
  | cons c r ih =>
    unfold http.Clean.backtrack
    split_ifs with hcond
    · cases s with
      | nil =>
        simp at h
        obtain ⟨_, hr⟩ := h
        subst hr
        simp at hcond
      | cons a s' =>
        simp at h
        exact ih c s' h.2
    · exact ⟨s, h⟩

theorem http.loop_rooted (rest : List Char) :
    ∀ (mode : http.Clean.Mode) (rout s : List Char), rout = s ++ ['/'] →
      ∃ s1, http.Clean.loop true mode rest rout 1 = s1 ++ ['/'] := by
  induction rest with
  | nil =>
    intro mode rout s h
    exact ⟨s, by cases mode <;> simp [http.Clean.loop, h]⟩
  | cons c rest ih =>
    intro mode rout s h
    cases mode with
    | copy =>
      simp only [http.Clean.loop]
      split_ifs
      · exact ih _ _ s h
      · exact ih _ _ (c :: s) (by simp [h])
    | dot2 =>
      simp only [http.Clean.loop]
      exact ih _ _ s h
    | element =>
      simp only [http.Clean.loop, Bool.not_true, Bool.false_eq_true, if_false, Bool.true_and,
        Bool.false_and, Bool.or_false]
      split_ifs with h1 h2 h3 h4
      all_goals first
        | exact ih _ _ s h
        | (refine ih _ _ (c :: s) ?_; simp [h]; done)
        | (refine ih _ _ (c :: '/' :: s) ?_; simp [h]; done)
        | (cases s with
           | nil => subst h; simp at h4
           | cons a s' =>
             subst h
             obtain ⟨s1, hs1⟩ := http.backtrack_rooted a (s' ++ ['/']) s' rfl
             exact ih _ _ s1 (by simpa using hs1))

theorem http.Clean_rooted (t : List Char) : ∃ s, http.Clean ('/' :: t) = '/' :: s := by
  obtain ⟨s1, hs1⟩ := http.loop_rooted t .element ['/'] [] rfl
  refine ⟨s1.reverse, ?_⟩
  simp [http.Clean, hs1]

theorem http.head_eq_slash (l : List Char) (h : l.head? = some '/') : ∃ t, l = '/' :: t := by
  cases l with
  | nil => simp at h
  | cons c t =>
    simp at h
    exact ⟨t, by rw [h]⟩

/-- A relative target resolved against a rooted request path is a rooted path. -/
theorem http.resolveRelative_rooted (escapedPath url : String)
    (h : escapedPath.data.head? = some '/') :
    (http.resolveRelative escapedPath url).data.head? = some '/' := by
  obtain ⟨t, ht⟩ := http.head_eq_slash _ h
  have hne : escapedPath ≠ "" := by
    intro h0
    rw [h0] at ht
    simp at ht
  have hurl1 : ∃ t1, (if url = "" ∨ url.data.head? ≠ some '/' then
      http.splitDir escapedPath.data ++ url.data else url.data) = '/' :: t1 := by
    split_ifs with hc
    · obtain ⟨s, hs⟩ := http.splitDir_rooted t
      exact ⟨s ++ url.data, by rw [ht, hs]; rfl⟩
    · have hhead : url.data.head? = some '/' := by
        by_contra hcon
        exact hc (Or.inr hcon)
      exact http.head_eq_slash _ hhead
  obtain ⟨t1, ht1⟩ := hurl1
  obtain ⟨s3, hs3⟩ := http.Clean_rooted (t1.takeWhile fun c => c != '?')
  have htake : ('/' :: t1).takeWhile (fun c => c != '?') =
      '/' :: t1.takeWhile (fun c => c != '?') := by
    simp [List.takeWhile]
  simp only [http.resolveRelative, hne, if_false, ht1, htake, hs3]
  split_ifs <;> simp

theorem http.hexEscapeNonASCII_rooted (s : String) (h : s.data.head? = some '/') :
    (http.hexEscapeNonASCII s).data.head? = some '/' := by
  obtain ⟨t, ht⟩ := http.head_eq_slash _ h
  simp [http.hexEscapeNonASCII, ht, List.flatMap_cons]

end urlshort

namespace urlshort

/-- C9 (as amended). For every mapping and every request whose path is mapped to
a non-empty URL `v`, the handler of `MapHandler` makes one call,
`http.Redirect(writer, request, v, 302)` with `v` itself; the response has status
302 when no status was written before; its `Location` header is `v` itself when
`v` is ASCII and `url.Parse` rejects it or reads it with a scheme or a host; and
when `url.Parse` reads `v` without scheme and host and the escaped request path
starts with a slash, the `Location` header starts with a slash, so it is not `v`
when `v` has no leading slash. -/
theorem MapHandler_redirect_response (Parse : http.ParseFn) (M : GoMap) (fallback : Handler)
    (writer : ResponseWriter) (request : Request) (v : String)
    (hkey : M.find request.Path = some v) (hv : v ≠ "") :
    ((MapHandler M fallback).run (http.Redirect Parse) writer request).calls =
        [Call.Redirect writer request v 302] ∧
      (writer.status = none →
        ((MapHandler M fallback).ServeHTTP (http.Redirect Parse) writer request).status =
          some 302) ∧
      ((Parse v = none ∨ ∃ u, Parse v = some u ∧ ¬ (u.Scheme = "" ∧ u.Host = "")) →
        (∀ c ∈ v.data, c.toNat < 0x80) →
        http.headerGet
            ((MapHandler M fallback).ServeHTTP (http.Redirect Parse) writer request).header
            "Location" = v) ∧
      ((∃ u, Parse v = some u ∧ u.Scheme = "" ∧ u.Host = "") →
        request.EscapedPath.data.head? = some '/' →
        (http.headerGet
            ((MapHandler M fallback).ServeHTTP (http.Redirect Parse) writer request).header
            "Location").data.head? = some '/' ∧
          (v.data.head? ≠ some '/' →
            http.headerGet
                ((MapHandler M fallback).ServeHTTP (http.Redirect Parse) writer
                  request).header
                "Location" ≠ v)) := by
  have hrun := run_of_find_nonempty (http.Redirect Parse) M fallback writer request v hkey hv
  have hserve : (MapHandler M fallback).ServeHTTP (http.Redirect Parse) writer request =
      http.Redirect Parse writer request v 302 := by
    simp [HandlerFunc.ServeHTTP, hrun]
  rw [hserve]
  refine ⟨by rw [hrun], fun hfresh => http.Redirect_status Parse writer request v 302 hfresh,
    fun habs hascii => ?_, fun hrel hrooted => ?_⟩
  · rw [http.Redirect_location, http.redirectTarget_of_absolute Parse request v habs,
      http.hexEscapeNonASCII_of_ascii v hascii]
  · obtain ⟨u, hu, hscheme, hhost⟩ := hrel
    have htarget : http.redirectTarget Parse request v =
        http.resolveRelative request.EscapedPath v := by
      simp [http.redirectTarget, hu, hscheme, hhost]
    have hhead : (http.headerGet (http.Redirect Parse writer request v 302).header
        "Location").data.head? = some '/' := by
      rw [http.Redirect_location, htarget]
      exact http.hexEscapeNonASCII_rooted _ (http.resolveRelative_rooted _ _ hrooted)
    refine ⟨hhead, fun hv0 heq => ?_⟩
    rw [heq] at hhead
    exact hv0 hhead

/-- C9, at the mapping `/a -> https://x` (an absolute ASCII URL, kept as it is) and
at the mapping `/a b/c -> foo` (a relative URL, joined to the directory of the
escaped request path `/a%20b/c`), each on a fresh writer and a `GET`. -/
theorem MapHandler_redirect_response_witness :
    ((GoMap.mk [("/a", "https://x")]).find "/a" = some "https://x" ∧
        ((MapHandler (GoMap.mk [("/a", "https://x")]) sampleFallback).ServeHTTP
            (http.Redirect sampleParse) emptyWriter ⟨"GET", "/a", "/a"⟩).status = some 302 ∧
        http.headerGet
            ((MapHandler (GoMap.mk [("/a", "https://x")]) sampleFallback).ServeHTTP
              (http.Redirect sampleParse) emptyWriter ⟨"GET", "/a", "/a"⟩).header
            "Location" = "https://x") ∧
      ((GoMap.mk [("/a b/c", "foo")]).find "/a b/c" = some "foo" ∧
        ((MapHandler (GoMap.mk [("/a b/c", "foo")]) sampleFallback).run
            (http.Redirect sampleParse) emptyWriter ⟨"GET", "/a b/c", "/a%20b/c"⟩).calls =
          [Call.Redirect emptyWriter ⟨"GET", "/a b/c", "/a%20b/c"⟩ "foo" 302] ∧
        http.headerGet
            ((MapHandler (GoMap.mk [("/a b/c", "foo")]) sampleFallback).ServeHTTP
              (http.Redirect sampleParse) emptyWriter ⟨"GET", "/a b/c", "/a%20b/c"⟩).header
            "Location" ≠ "foo" ∧
        http.headerGet
            ((MapHandler (GoMap.mk [("/a b/c", "foo")]) sampleFallback).ServeHTTP
              (http.Redirect sampleParse) emptyWriter ⟨"GET", "/a b/c", "/a%20b/c"⟩).header
            "Location" = "/a%20b/foo") :=
  ⟨⟨by decide,
      (MapHandler_redirect_response sampleParse (GoMap.mk [("/a", "https://x")])
        sampleFallback emptyWriter ⟨"GET", "/a", "/a"⟩ "https://x" (by decide)
        (by decide)).2.1 rfl,
      (MapHandler_redirect_response sampleParse (GoMap.mk [("/a", "https://x")])
        sampleFallback emptyWriter ⟨"GET", "/a", "/a"⟩ "https://x" (by decide)
        (by decide)).2.2.1
        (Or.inr ⟨⟨"https", "x"⟩, by decide, by decide⟩) (by decide)⟩,
    ⟨by decide,
      (MapHandler_redirect_response sampleParse (GoMap.mk [("/a b/c", "foo")])
        sampleFallback emptyWriter ⟨"GET", "/a b/c", "/a%20b/c"⟩ "foo" (by decide)
        (by decide)).1,
      ((MapHandler_redirect_response sampleParse (GoMap.mk [("/a b/c", "foo")])
        sampleFallback emptyWriter ⟨"GET", "/a b/c", "/a%20b/c"⟩ "foo" (by decide)
        (by decide)).2.2.2 ⟨⟨"", ""⟩, by decide, rfl, rfl⟩ (by decide)).2 (by decide),
      by decide⟩⟩

/-- C9 fails as stated: with the mapping `/a/b -> foo` (a relative URL without
scheme or leading slash) and a `GET` of `/a/b`, for any `url.Parse` that reads
`foo` without scheme and host, the `Location` header is `/a/foo`, not the mapped
URL `foo`. -/
theorem MapHandler_relative_target_rewritten :
    (∀ Parse : http.ParseFn, Parse "foo" = some ⟨"", ""⟩ →
        http.headerGet
            ((MapHandler (GoMap.mk [("/a/b", "foo")]) sampleFallback).ServeHTTP
              (http.Redirect Parse) emptyWriter ⟨"GET", "/a/b", "/a/b"⟩).header
            "Location" = "/a/foo") ∧
      sampleParse "foo" = some ⟨"", ""⟩ ∧
      http.headerGet
          ((MapHandler (GoMap.mk [("/a/b", "foo")]) sampleFallback).ServeHTTP
            (http.Redirect sampleParse) emptyWriter ⟨"GET", "/a/b", "/a/b"⟩).header
          "Location" ≠ "foo" := by
  have hgen : ∀ Parse : http.ParseFn, Parse "foo" = some ⟨"", ""⟩ →
      http.headerGet
          ((MapHandler (GoMap.mk [("/a/b", "foo")]) sampleFallback).ServeHTTP
            (http.Redirect Parse) emptyWriter ⟨"GET", "/a/b", "/a/b"⟩).header
          "Location" = "/a/foo" := by
    intro Parse hparse
    have hserve : (MapHandler (GoMap.mk [("/a/b", "foo")]) sampleFallback).ServeHTTP
        (http.Redirect Parse) emptyWriter ⟨"GET", "/a/b", "/a/b"⟩ =
        http.Redirect Parse emptyWriter ⟨"GET", "/a/b", "/a/b"⟩ "foo" 302 := by
      simp [HandlerFunc.ServeHTTP,
        run_of_find_nonempty (http.Redirect Parse) (GoMap.mk [("/a/b", "foo")]) sampleFallback
          emptyWriter ⟨"GET", "/a/b", "/a/b"⟩ "foo" (by decide) (by decide)]
    rw [hserve, http.Redirect_location]
    have htarget : http.redirectTarget Parse ⟨"GET", "/a/b", "/a/b"⟩ "foo" = "/a/foo" := by
      simp only [http.redirectTarget, hparse]
      decide
    rw [htarget]
    decide
  refine ⟨hgen, by decide, ?_⟩
  rw [hgen sampleParse (by decide)]
  decide

end urlshort

/-! ## The structured-data format: decoding an encoded document -/

namespace urlshort

theorem yaml.hexDigit_printable (d : Nat) (h : d < 16) :
    0x20 ≤ (yaml.hexDigit d).toNat ∧ (yaml.hexDigit d).toNat ≤ 0x7E := by
  interval_cases d <;> decide

theorem yaml.hexVal_hexDigit (d : Nat) (h : d < 16) :
    yaml.hexVal (yaml.hexDigit d) = some d := by
  interval_cases d <;> rfl

theorem yaml.escapeChar_printable (c x : Char) (hx : x ∈ yaml.escapeChar c) :
    0x20 ≤ x.toNat ∧ x.toNat ≤ 0x7E := by
  unfold yaml.escapeChar at hx
  split_ifs at hx with h1 h2 h3
  · simp at hx
    rcases hx with rfl
    decide
  · simp at hx
    rcases hx with rfl | rfl <;> decide
  · simp at hx
    rw [hx]
    exact h3
  · simp only [yaml.hex8, List.mem_cons, List.mem_singleton, List.not_mem_nil, or_false] at hx
    rcases hx with rfl | rfl | rfl | rfl | rfl | rfl | rfl | rfl | rfl | rfl
    · decide
    · decide
    all_goals exact yaml.hexDigit_printable _ (Nat.mod_lt _ (by norm_num))

theorem yaml.quoted_printable (s : String) (x : Char) (hx : x ∈ yaml.quoted s) :
    0x20 ≤ x.toNat ∧ x.toNat ≤ 0x7E := by
  simp only [yaml.quoted, List.mem_cons, List.mem_append, List.mem_flatMap,
    List.mem_singleton, List.not_mem_nil, or_false] at hx
  rcases hx with rfl | ⟨c, _, hc⟩ | rfl
  · decide
  · exact yaml.escapeChar_printable c x hc
  · decide

theorem yaml.pathLine_printable (r : pathURL) (x : Char) (hx : x ∈ yaml.pathLine r) :
    0x20 ≤ x.toNat ∧ x.toNat ≤ 0x7E := by
  simp only [yaml.pathLine, yaml.pathKey, List.mem_append] at hx
  rcases hx with hx | hx
  · revert x
    decide
  · exact yaml.quoted_printable _ x hx

theorem yaml.urlLine_printable (r : pathURL) (x : Char) (hx : x ∈ yaml.urlLine r) :
    0x20 ≤ x.toNat ∧ x.toNat ≤ 0x7E := by
  simp only [yaml.urlLine, yaml.urlKey, List.mem_append] at hx
  rcases hx with hx | hx
  · revert x
    decide
  · exact yaml.quoted_printable _ x hx

end urlshort

namespace urlshort

theorem yaml.toNat_ofNat_byte (n : Nat) (h : n < 256) : (UInt8.ofNat n).toNat = n := by
  show n % 256 = n
  exact Nat.mod_eq_of_lt h

/-- An ASCII text is read back from its bytes. -/
theorem yaml.utf8Decode_ascii (l : List Char) (h : ∀ c ∈ l, c.toNat < 0x80) :
    yaml.utf8Decode 0 0 (l.map fun c => UInt8.ofNat c.toNat) = some l := by
  induction l with
  | nil => rfl
  | cons c l ih =>
    have hc : c.toNat < 0x80 := h c (List.mem_cons_self _ _)
    have hb : (UInt8.ofNat c.toNat).toNat = c.toNat :=
      yaml.toNat_ofNat_byte _ (by omega)
    have hrest := ih (fun x hx => h x (List.mem_cons_of_mem _ hx))
    simp only [List.map_cons, yaml.utf8Decode, hb, hc, if_true, hrest, Option.map_some',
      Char.ofNat_toNat]

theorem yaml.splitLines_line (l rest : List Char) (h : ∀ c ∈ l, c ≠ '\n') :
    yaml.splitLines (l ++ '\n' :: rest) = l :: yaml.splitLines rest := by
  induction l with
  | nil => simp [yaml.splitLines]
  | cons c l ih =>
    have hc : c ≠ '\n' := h c (List.mem_cons_self _ _)
    have hrest := ih (fun x hx => h x (List.mem_cons_of_mem _ hx))
    have hrest1 : yaml.splitLines (l.append ('\n' :: rest)) = l :: yaml.splitLines rest := hrest
    simp only [List.cons_append, yaml.splitLines, hc, if_false, hrest1]

theorem yaml.ne_newline_of_printable (x : Char) (h : 0x20 ≤ x.toNat ∧ x.toNat ≤ 0x7E) :
    x ≠ '\n' := by
  intro hx
  rw [hx] at h
  exact absurd h (by decide)

/-- The lines of an encoded document are the two lines of each record. -/
theorem yaml.splitLines_encodeText (rs : List pathURL) :
    yaml.splitLines (yaml.encodeText rs) =
      rs.flatMap fun r => [yaml.pathLine r, yaml.urlLine r] := by
  induction rs with
  | nil => rfl
  | cons r rs ih =>
    have h1 : ∀ c ∈ yaml.pathLine r, c ≠ '\n' := fun c hc =>
      yaml.ne_newline_of_printable c (yaml.pathLine_printable r c hc)
    have h2 : ∀ c ∈ yaml.urlLine r, c ≠ '\n' := fun c hc =>
      yaml.ne_newline_of_printable c (yaml.urlLine_printable r c hc)
    have hstep : yaml.encodeText (r :: rs) =
        yaml.pathLine r ++ '\n' :: (yaml.urlLine r ++ '\n' :: yaml.encodeText rs) := by
      simp [yaml.encodeText, List.flatMap_cons]
    rw [hstep, yaml.splitLines_line _ _ h1, yaml.splitLines_line _ _ h2, ih]
    simp [List.flatMap_cons]

theorem yaml.encodeText_ascii (rs : List pathURL) (c : Char) (hc : c ∈ yaml.encodeText rs) :
    c.toNat < 0x80 := by
  simp only [yaml.encodeText, List.mem_flatMap, List.mem_append, List.mem_cons,
    List.mem_singleton, List.not_mem_nil, or_false] at hc
  obtain ⟨r, _, h | rfl | h | rfl⟩ := hc
  · have := yaml.pathLine_printable r c h
    omega
  · decide
  · have := yaml.urlLine_printable r c h
    omega
  · decide

end urlshort

namespace urlshort

theorem yaml.unquote_hex_step (left acc d : Nat) (t : List Char) (hd : d < 16)
    (hleft : 1 < left) :
    yaml.unquote (.hex left acc) (yaml.hexDigit d :: t) =
      yaml.unquote (.hex (left - 1) (acc * 16 + d)) t := by
  have hnot : ¬ left ≤ 1 := by omega
  simp only [yaml.unquote, yaml.hexVal_hexDigit d hd, hnot, if_false]

theorem yaml.unquote_hex_last (acc d : Nat) (t : List Char) (hd : d < 16)
    (hvalid : (acc * 16 + d).isValidChar) :
    yaml.unquote (.hex 1 acc) (yaml.hexDigit d :: t) =
      (yaml.unquote .text t).map fun cs => Char.ofNat (acc * 16 + d) :: cs := by
  simp only [yaml.unquote, yaml.hexVal_hexDigit d hd, le_refl, if_true, hvalid]

theorem yaml.unquote_hex8 (n : Nat) (t : List Char) (hn : n.isValidChar) :
    yaml.unquote (.hex 8 0) (yaml.hex8 n ++ t) =
      (yaml.unquote .text t).map fun cs => Char.ofNat n :: cs := by
  have hlt : n < 1114112 := by
    rcases hn with h | ⟨_, h⟩ <;> omega
  have hval : ((((((((0 * 16 + n / 268435456 % 16) * 16 + n / 16777216 % 16) * 16 +
      n / 1048576 % 16) * 16 + n / 65536 % 16) * 16 + n / 4096 % 16) * 16 +
      n / 256 % 16) * 16 + n / 16 % 16) * 16 + n % 16) = n := by
    omega
  simp only [yaml.hex8, List.cons_append, List.nil_append]
  rw [yaml.unquote_hex_step 8 _ _ _ (Nat.mod_lt _ (by norm_num)) (by norm_num),
    yaml.unquote_hex_step 7 _ _ _ (Nat.mod_lt _ (by norm_num)) (by norm_num),
    yaml.unquote_hex_step 6 _ _ _ (Nat.mod_lt _ (by norm_num)) (by norm_num),
    yaml.unquote_hex_step 5 _ _ _ (Nat.mod_lt _ (by norm_num)) (by norm_num),
    yaml.unquote_hex_step 4 _ _ _ (Nat.mod_lt _ (by norm_num)) (by norm_num),
    yaml.unquote_hex_step 3 _ _ _ (Nat.mod_lt _ (by norm_num)) (by norm_num),
    yaml.unquote_hex_step 2 _ _ _ (Nat.mod_lt _ (by norm_num)) (by norm_num),
    yaml.unquote_hex_last _ _ _ (Nat.mod_lt _ (by norm_num)) (by rw [hval]; exact hn),
    hval]

theorem yaml.unquote_escapeChar (c : Char) (t : List Char) :
    yaml.unquote .text (yaml.escapeChar c ++ t) =
      (yaml.unquote .text t).map fun cs => c :: cs := by
  unfold yaml.escapeChar
  split_ifs with h1 h2 h3
  · subst h1
    simp [yaml.unquote]
  · subst h2
    simp [yaml.unquote]
  · simp [yaml.unquote, h1, h2]
  · have hU : yaml.unquote .text ('\\' :: 'U' :: (yaml.hex8 c.toNat ++ t)) =
        yaml.unquote (.hex 8 0) (yaml.hex8 c.toNat ++ t) := by
      simp [yaml.unquote]
    simp only [List.cons_append]
    rw [hU, yaml.unquote_hex8 c.toNat t c.valid, Char.ofNat_toNat]

/-- The body of a quoted scalar is read back as the string it was written from. -/
theorem yaml.unquote_quoted (s : List Char) :
    yaml.unquote .text (s.flatMap yaml.escapeChar ++ ['"']) = some s := by
  induction s with
  | nil => simp [yaml.unquote]
  | cons c s ih =>
    rw [List.flatMap_cons, List.append_assoc, yaml.unquote_escapeChar, ih]
    rfl

theorem yaml.scalar_quoted (s : String) : yaml.scalar (yaml.quoted s) = some s := by
  simp [yaml.scalar, yaml.quoted, yaml.unquote_quoted]

theorem yaml.field_pathLine (r : pathURL) :
    yaml.field yaml.pathKey (yaml.pathLine r) = some r.Path := by
  have hpre : yaml.pathKey.isPrefixOf (yaml.pathKey ++ yaml.quoted r.Path) = true :=
    List.isPrefixOf_iff_prefix.2 (List.prefix_append _ _)
  simp only [yaml.field, yaml.pathLine, hpre, if_true, List.drop_left, yaml.scalar_quoted]

theorem yaml.field_urlLine (r : pathURL) :
    yaml.field yaml.urlKey (yaml.urlLine r) = some r.URL := by
  have hpre : yaml.urlKey.isPrefixOf (yaml.urlKey ++ yaml.quoted r.URL) = true :=
    List.isPrefixOf_iff_prefix.2 (List.prefix_append _ _)
  simp only [yaml.field, yaml.urlLine, hpre, if_true, List.drop_left, yaml.scalar_quoted]

theorem yaml.parseRecords_lines (rs : List pathURL) :
    yaml.parseRecords (rs.flatMap fun r => [yaml.pathLine r, yaml.urlLine r]) = .ok rs := by
  induction rs with
  | nil => rfl
  | cons r rs ih =>
    have hcons : ((r :: rs).flatMap fun r => [yaml.pathLine r, yaml.urlLine r]) =
        yaml.pathLine r :: yaml.urlLine r ::
          rs.flatMap fun r => [yaml.pathLine r, yaml.urlLine r] := by
      simp [List.flatMap_cons]
    rw [hcons, yaml.parseRecords, yaml.field_pathLine, yaml.field_urlLine, ih]

/-- The decoder reads the encoding of a record sequence back as that sequence. -/
theorem yaml.Unmarshal_Marshal (rs : List pathURL) :
    yaml.Unmarshal (yaml.Marshal rs) = .ok rs := by
  have hdec : yaml.utf8Decode 0 0 (yaml.Marshal rs) = some (yaml.encodeText rs) :=
    yaml.utf8Decode_ascii _ (yaml.encodeText_ascii rs)
  simp only [yaml.Unmarshal, hdec, yaml.splitLines_encodeText]
  cases rs with
  | nil => rfl
  | cons r rs =>
    have h := yaml.parseRecords_lines (r :: rs)
    simp only [List.flatMap_cons, List.cons_append, List.nil_append] at h ⊢
    exact h

end urlshort

/-! ## YAMLHandler: round trip -/

namespace urlshort

/-- The decoder of the structured format on the document of the specification,
written with plain scalars, and on two inputs that are not such a document. -/
theorem yaml.Unmarshal_examples :
    yaml.Unmarshal sampleYAML = .ok sampleRecords ∧
      String.mk (yaml.encodeText sampleRecords) =
        "- path: \"/a\"\n  url: \"https://x\"\n- path: \"/b\"\n  url: \"https://y\"\n" ∧
      yaml.Unmarshal ("- path: /a\n  url: [1, 2]\n".data.map fun c => UInt8.ofNat c.toNat) =
        .error "yaml: unmarshal errors: cannot read a record" ∧
      yaml.Unmarshal ("- path: \"/a\n".data.map fun c => UInt8.ofNat c.toNat) =
        .error "yaml: unmarshal errors: a record needs a path and a url line" :=
  ⟨rfl, by decide, rfl, rfl⟩

/-- Whatever the decoder, for decoded records with pairwise distinct paths and
non-empty urls a request of the path of one of them is redirected to its url. -/
theorem YAMLHandler_redirects_decoded_record {ε : Type} (Unmarshal : UnmarshalFn ε)
    (yml : List UInt8) (fallback : Handler) (rs : List pathURL) (item : pathURL)
    (Redirect : RedirectFn) (writer : ResponseWriter) (request : Request)
    (hdec : Unmarshal yml = .ok rs)
    (hdistinct : (rs.map pathURL.Path).Nodup) (hurl : ∀ r ∈ rs, r.URL ≠ "")
    (hmem : item ∈ rs) (hreq : request.Path = item.Path) :
    ∃ h, YAMLHandler Unmarshal yml fallback = (some h, none) ∧
      h.run Redirect writer request =
        ⟨buildMap rs, Redirect writer request item.URL 302,
          [Call.Redirect writer request item.URL 302]⟩ := by
  obtain ⟨pre, post, hsplit⟩ := List.append_of_mem hmem
  have hpost : ∀ r ∈ post, r.Path ≠ item.Path := by
    intro r hr heq
    rw [hsplit, List.map_append, List.map_cons] at hdistinct
    have hnd := (List.nodup_cons.1 (List.nodup_append.1 hdistinct).2.1).1
    exact hnd (heq ▸ List.mem_map_of_mem pathURL.Path hr)
  have hfind : (buildMap rs).find request.Path = some item.URL := by
    rw [hreq, hsplit]
    exact find_buildMap_last item.Path item.URL pre post hpost
  exact ⟨MapHandler (buildMap rs) fallback,
    YAMLHandler_of_ok Unmarshal yml fallback rs hdec,
    run_of_find_nonempty Redirect _ fallback writer request item.URL hfind (hurl item hmem)⟩

/-- C6. Round trip: for every record sequence with pairwise distinct paths and
non-empty urls, the document `yaml.Marshal` encodes it into is decoded by
`yaml.Unmarshal` to the same records, `YAMLHandler` returns a handler and no
error for it, and for a request of the path of any of the records that handler
makes exactly one call: `http.Redirect` to that record's url with status 302. -/
theorem YAMLHandler_round_trip (fallback : Handler) (rs : List pathURL) (item : pathURL)
    (Redirect : RedirectFn) (writer : ResponseWriter) (request : Request)
    (hdistinct : (rs.map pathURL.Path).Nodup) (hurl : ∀ r ∈ rs, r.URL ≠ "")
    (hmem : item ∈ rs) (hreq : request.Path = item.Path) :
    yaml.Unmarshal (yaml.Marshal rs) = .ok rs ∧
      ∃ h, YAMLHandler yaml.Unmarshal (yaml.Marshal rs) fallback = (some h, none) ∧
        h.run Redirect writer request =
          ⟨buildMap rs, Redirect writer request item.URL 302,
            [Call.Redirect writer request item.URL 302]⟩ :=
  ⟨yaml.Unmarshal_Marshal rs,
    YAMLHandler_redirects_decoded_record yaml.Unmarshal (yaml.Marshal rs) fallback rs item
      Redirect writer request (yaml.Unmarshal_Marshal rs) hdistinct hurl hmem hreq⟩

/-- C6, at the records `/a -> https://x`, `/b -> https://y` and a `GET` of `/a`. -/
theorem YAMLHandler_round_trip_witness :
    (sampleRecords.map pathURL.Path).Nodup ∧
      (∀ r ∈ sampleRecords, r.URL ≠ "") ∧
      yaml.Unmarshal (yaml.Marshal sampleRecords) = .ok sampleRecords ∧
      ∃ h, YAMLHandler yaml.Unmarshal (yaml.Marshal sampleRecords) sampleFallback =
            (some h, none) ∧
        h.run (http.Redirect sampleParse) emptyWriter ⟨"GET", "/a", "/a"⟩ =
          ⟨buildMap sampleRecords,
            http.Redirect sampleParse emptyWriter ⟨"GET", "/a", "/a"⟩ "https://x" 302,
            [Call.Redirect emptyWriter ⟨"GET", "/a", "/a"⟩ "https://x" 302]⟩ :=
  ⟨by decide, by decide,
    YAMLHandler_round_trip sampleFallback sampleRecords ⟨"/a", "https://x"⟩
      (http.Redirect sampleParse) emptyWriter ⟨"GET", "/a", "/a"⟩ (by decide) (by decide)
      (by decide) rfl⟩

end urlshort
